import Mathlib

/-!
Verification of the piranha default series multiplier
(src/series_multiplier.hpp) against its natural-language specification.

The C++ code is shallowly embedded: index arithmetic over the operand term
arrays is modelled with Nat (the C++ computations either use the
arbitrary-precision piranha::integer or carry explicit overflow checks that
throw before wrap-around, so the non-throwing executions agree with Nat
semantics), the multiplication functor is modelled as a record of the
operations the multiplier invokes on it (the concrete term/coefficient types
are template parameters in the source), and fallible paths (exception
throws) are modelled with Option/Except.
-/

namespace PiranhaMul

/-! ## Block tiler (blocked_multiplication) and its naive counterpart -/

/-- Inner j loop of blocked_multiplication over the half-open index range
[a, a + len): pairs (i, j) are emitted in order and the loop breaks at the
first j with skip i j = true, exactly as the source loop
(for j; if (f.skip(i,j)) break; f(i,j); f.insert();). -/
def rowLoop (skip : Nat → Nat → Bool) (i a len : Nat) : List (Nat × Nat) :=
  ((List.range' a len).takeWhile (fun j => !skip i j)).map (fun j => (i, j))

/-- Iteration of the inner j loop over a contiguous range of rows
[istart, istart + ilen), as done inside each tile of
blocked_multiplication. -/
def blockRows (skip : Nat → Nat → Bool) (istart ilen a len : Nat) : List (Nat × Nat) :=
  (List.range' istart ilen).flatMap (fun i => rowLoop skip i a len)

/-- Embedding of blocked_multiplication (series_multiplier.hpp, lines
866-924): the (i, j) pairs visited by the 256x256 tiled double loop, in
visit order.  The four parts are regular1*regular2 tiles, regular1*rem2,
rem1*regular2 and rem1*rem2, with the per-row break on the skip predicate
in every part. -/
def blocked_multiplication (skip : Nat → Nat → Bool) (size1 size2 : Nat) : List (Nat × Nat) :=
  let bsize1 : Nat := 256
  let nblocks1 := size1 / bsize1
  let bsize2 := bsize1
  let nblocks2 := size2 / bsize2
  let i_ir_start := nblocks1 * bsize1
  let j_ir_start := nblocks2 * bsize2
  ((List.range nblocks1).flatMap (fun n1 =>
    ((List.range nblocks2).flatMap (fun n2 =>
      blockRows skip (n1 * bsize1) bsize1 (n2 * bsize2) bsize2))
    ++ blockRows skip (n1 * bsize1) bsize1 j_ir_start (size2 - j_ir_start)))
  ++ ((List.range nblocks2).flatMap (fun n2 =>
      blockRows skip i_ir_start (size1 - i_ir_start) (n2 * bsize2) bsize2))
  ++ blockRows skip i_ir_start (size1 - i_ir_start) j_ir_start (size2 - j_ir_start)

/-- Naive reference double loop: every pair (i, j) in [0, size1) x [0, size2)
is tested with the skip predicate and exactly the non-skipped pairs are
emitted. -/
def naive_multiplication (skip : Nat → Nat → Bool) (size1 size2 : Nat) : List (Nat × Nat) :=
  (List.range size1).flatMap (fun i =>
    ((List.range size2).filter (fun j => !skip i j)).map (fun j => (i, j)))

/-- Contribution of a single index pair to the multiset of visited pairs:
nothing if the pair is skipped, the singleton pair otherwise.  Proof-side
helper used to reduce both loops to indexed sums. -/
def rowAt (skip : Nat → Nat → Bool) (i j : Nat) : Multiset (Nat × Nat) :=
  if skip i j then 0 else {(i, j)}

/-! ## Thread-count heuristic of execute -/

/-- Embedding of the thread-count computation in execute
(series_multiplier.hpp, lines 224-240): start from the configured maximum
maxT, reduce it when maxT is not 1 so that each thread gets at least 100000
term multiplications, then clamp to the size of the first operand. -/
def compute_n_threads (maxT size1 size2 : Nat) : Nat :=
  let n0 := maxT
  let n1 :=
    if n0 ≠ 1 then
      (if 100000 ≤ (size1 * size2) / n0 then n0 else max 1 ((size1 * size2) / 100000))
    else n0
  if size1 < n1 then size1 else n1

/-- Embedding of the single-thread decision in execute (line 243): go
single-threaded when the computed thread count is 1 or the calling thread
is not the recorded main thread. -/
def single_threaded (maxT size1 size2 : Nat) (isMainThread : Bool) : Bool :=
  compute_n_threads maxT size1 size2 == 1 || !isMainThread

/-! ## Empty-operand short circuit of execute -/

/-- Minimal model of a series as seen by the multiplier: a symbol set and a
list of terms. -/
structure SeriesModel (T : Type) where
  symbol_set : List String
  terms : List T
deriving DecidableEq

/-- Embedding of the entry of execute (series_multiplier.hpp, lines
215-218): if one of the two operands is empty, a default-constructed result
(empty symbol set, no terms) is returned; otherwise the rest of the
algorithm (abstracted as the function heavy, covering thread setup,
estimation, tiling and merge) produces the result. -/
def execute_entry {T : Type} (s1 s2 : SeriesModel T)
    (heavy : SeriesModel T → SeriesModel T → SeriesModel T) : SeriesModel T :=
  if s1.terms.isEmpty || s2.terms.isEmpty then { symbol_set := [], terms := [] }
  else heavy s1 s2

/-! ## Multiplication functor construction -/

/-- Embedding of the default_functor constructor (series_multiplier.hpp,
lines 463-472): if the IsActive template flag differs from the activity
flag of the truncator, std::invalid_argument is thrown; otherwise the
pointer arrays are sorted with the truncator comparator exactly when the
truncator is active and skipping.  Terms are identified with their indices;
cmp models trunc.compare_terms on the pointed-to terms. -/
def default_functor_ctor (isActive truncActive truncSkipping : Bool)
    (cmp : Nat → Nat → Bool) (v1 v2 : List Nat) :
    Except String (List Nat × List Nat) :=
  if isActive ≠ truncActive then
    .error "inconsistent activity flags for truncator"
  else if isActive && truncSkipping then
    .ok (v1.mergeSort cmp, v2.mergeSort cmp)
  else
    .ok (v1, v2)

/-- Functor construction followed by an arbitrary continuation rest (the
term multiplications and insertions performed with the functor): if the
constructor throws, nothing downstream runs and no accumulator is
produced. -/
def ctor_then (isActive truncActive truncSkipping : Bool)
    (cmp : Nat → Nat → Bool) (v1 v2 : List Nat)
    (rest : List Nat × List Nat → List Nat) : Except String (List Nat) :=
  (default_functor_ctor isActive truncActive truncSkipping cmp v1 v2).map rest

/-! ## Final merge error handling -/

/-- Embedding of the exception plumbing of final_merge
(series_multiplier.hpp, lines 594-709): the bucket-assignment phase (tg1)
runs first and the first exception captured in its exception vector is
rethrown after the join; otherwise the insertion phase (tg2) runs and the
first exception captured in its vector is rethrown after the join; with no
captured exception the merged target is returned.  The lists phase1 and
phase2 are the exception vectors in capture order. -/
def final_merge_model {E : Type} (phase1 phase2 : List E) (merged : List Nat) :
    Except E (List Nat) :=
  match phase1 with
  | e :: _ => .error e
  | [] =>
    match phase2 with
    | e :: _ => .error e
    | [] => .ok merged

/-- Embedding of the merge stage of execute (series_multiplier.hpp, lines
328-349): final_merge runs inside a try block; on an exception the cleanup
lambda clears every per-thread accumulator in retval_list, the target
container is cleared too, and the exception is re-thrown; on success the
per-thread accumulators are also cleared before returning the target.
Result: (propagated exception if any, target accumulator state, per-thread
accumulator states). -/
def execute_merge_stage {E : Type} (phase1 phase2 : List E) (merged : List Nat)
    (sources : List (List Nat)) : Option E × List Nat × List (List Nat) :=
  match final_merge_model phase1 phase2 merged with
  | .ok r => (none, r, sources.map (fun _ => []))
  | .error e => (some e, [], sources.map (fun _ => []))

/-! ## Merge-target selection of the multi-threaded path -/

/-- Outcome of the merge-target selection: either one of the per-thread
accumulators (identified by its bucket count and position) is moved out as
the target, or a fresh accumulator is used after a rehash request. -/
inductive MergeTarget
  | moved (bucketCount : Nat) (index : Nat)
  | fresh (rehashRequest : Nat)
deriving DecidableEq

/-- Model of std::find_if over the list of per-thread accumulators: index
of the first element satisfying the predicate, if any. -/
def find_if_idx (p : Nat → Bool) : List Nat → Option Nat
  | [] => none
  | b :: bs => if p b then some 0 else (find_if_idx p bs).map (· + 1)

/-- Embedding of the merge-target selection in execute
(series_multiplier.hpp, lines 308-326): the final estimate is first bumped
to 1 if it is 0; then std::find_if scans retval_list for the first
accumulator r with bucket_count * max_load_factor >= final_estimate; if one
is found it is moved out as the target and erased from the list, otherwise
the fresh target is rehashed to final_estimate.  Per-thread accumulators
are represented by their bucket counts; mlf is the max load factor. -/
def select_merge_target (bucketCounts : List Nat) (mlf : ℚ) (est0 : Nat) :
    MergeTarget × List Nat :=
  let finalEstimate := if est0 = 0 then 1 else est0
  match find_if_idx (fun b => decide ((finalEstimate : ℚ) ≤ (b : ℚ) * mlf)) bucketCounts with
  | some i => (.moved (bucketCounts.getD i 0) i, bucketCounts.eraseIdx i)
  | none => (.fresh finalEstimate, bucketCounts)

/-! ## Density estimator (estimate_final_series_size) -/

/-- Operations of the multiplication functor used by the density estimator,
abstracting the template parameter Functor of estimate_final_series_size.
The accumulator series retval that the functor writes into is the state
sigma.
  - mulInsert s i j models the pair f(i, j) followed by
    f.insert (with CheckFilter false), i.e. multiplying the i-th and j-th
    terms and inserting all produced terms into the accumulator;
  - asize is retval.size();
  - resSize is result_size(f.m_tmp), the arity of a term multiplication (a
    compile-time constant of the term type, at least 1 in the source since
    the result is a term or a non-empty tuple of terms);
  - nFiltered i j models count_n_filtered(f.m_tmp, f) after multiplying
    pair (i, j): how many of the resSize produced terms the truncator would
    filter (hence the bound hfilter);
  - empty is the state of the accumulator after
    retval.m_container.clear().  The hash-set clear itself is code of this
    repository outside src/; per the spec of the accumulator it leaves the
    container with no terms, so clearing is modelled as replacing the state
    with the distinguished empty state. -/
structure FunctorModel (σ : Type) where
  mulInsert : σ → Nat → Nat → σ
  asize : σ → Nat
  resSize : Nat
  nFiltered : Nat → Nat → Nat
  empty : σ
  hfilter : ∀ i j, nFiltered i j ≤ resSize

/-- Downward scan computing the largest r below the fuel bound with
r * r <= n. -/
def isqrtAux (n : Nat) : Nat → Nat
  | 0 => 0
  | k + 1 => if (k + 1) * (k + 1) ≤ n then k + 1 else isqrtAux n k

/-- Integer square root (floor of the real square root), modelling the
sqrt() method of piranha::integer used to compute max_M; proven equal to
Nat.sqrt below, and defined by structural recursion so that concrete
instances evaluate. -/
def isqrt (n : Nat) : Nat := isqrtAux n n

/-- Model of std::rotate(begin, end - 1, end) on the second index vector:
the last element moves to the front. -/
def rot1 (l : List Nat) : List Nat :=
  match l.getLast? with
  | none => []
  | some a => a :: l.dropLast

/-- One trial sweep of the estimator (series_multiplier.hpp, lines
785-825): while count < maxM, wrap the first iterator (rotating the second
vector and resetting its iterator on wrap), wrap the second iterator,
multiply the current pair and insert the products without filtering, break
if the accumulator did not grow by the full arity, otherwise accumulate the
filtered count and the product count and advance both iterators.  Iterators
are positions p1 into v1 and p2 into v2.  Since every completed iteration
increases count by resSize >= 1, maxM iterations always suffice, so the
loop is driven by a fuel counter initialised to maxM; returns (count,
count_filtered, accumulator state, final second vector).

The iterator wrap-around at the top of the loop body is factored into
wrapPos: on wrap of the first iterator the second vector is rotated and
both iterators reset; then the second iterator wraps on its own end. -/
def wrapPos (v1 v2 : List Nat) (p1 p2 : Nat) : Nat × List Nat × Nat :=
  let p1a := if p1 = v1.length then 0 else p1
  let v2a := if p1 = v1.length then rot1 v2 else v2
  let p2a := if p1 = v1.length then 0 else p2
  let p2b := if p2a = v2a.length then 0 else p2a
  (p1a, v2a, p2b)

/-- While loop of one estimator trial; see the comment on wrapPos above. -/
def sweepLoop {σ : Type} (F : FunctorModel σ) (maxM : Nat) (v1 : List Nat) :
    Nat → Nat → Nat → σ → List Nat → Nat → Nat → Nat × Nat × σ × List Nat
  | 0, count, countF, s, v2, _, _ => (count, countF, s, v2)
  | fuel + 1, count, countF, s, v2, p1, p2 =>
    if count < maxM then
      let w := wrapPos v1 v2 p1 p2
      let i := v1.getD w.1 0
      let j := w.2.1.getD w.2.2 0
      let s1 := F.mulInsert s i j
      if F.asize s1 ≠ count + F.resSize then (count, countF, s1, w.2.1)
      else
        sweepLoop F maxM v1 fuel (count + F.resSize) (countF + F.nFiltered i j)
          s1 w.2.1 (w.1 + 1) (w.2.2 + 1)
    else (count, countF, s, v2)

/-- A single estimator trial: run the sweep from fresh iterators. -/
def runTrial {σ : Type} (F : FunctorModel σ) (maxM : Nat) (v1 v2 : List Nat) (s : σ) :
    Nat × Nat × σ × List Nat :=
  sweepLoop F maxM v1 maxM 0 0 s v2 0 0

/-- Trial loop of the estimator (series_multiplier.hpp, lines 780-830): for
each trial, shuffle both index vectors with the engine-threaded shuffle sh
(modelling std::random_shuffle driven by the std::mt19937 engine), run one
sweep, add the per-trial counts to the running totals and clear the
accumulator; the rotated second vector persists into the next trial, as in
the source where v_idx2 is mutated in place. -/
def trialsLoop {σ Eng : Type} (F : FunctorModel σ)
    (sh : Eng → List Nat → List Nat × Eng) (maxM : Nat) :
    Nat → Eng → List Nat → List Nat → σ → Nat → Nat → Nat × Nat × σ
  | 0, _, _, _, s, total, filtered => (total, filtered, s)
  | n + 1, e, v1, v2, s, total, filtered =>
    let a := sh e v1
    let b := sh a.2 v2
    let r := runTrial F maxM a.1 b.1 s
    trialsLoop F sh maxM n b.2 a.1 r.2.2.2 F.empty (total + r.1) (filtered + r.2.1)

/-- Specification-side record of the individual trials: the same trial
machinery as trialsLoop, but returning the list of per-trial
(count, count_filtered, accumulator size before the clear) triples instead
of the running totals. -/
def trialStatsLoop {σ Eng : Type} (F : FunctorModel σ)
    (sh : Eng → List Nat → List Nat × Eng) (maxM : Nat) :
    Nat → Eng → List Nat → List Nat → σ → List (Nat × Nat × Nat)
  | 0, _, _, _, _ => []
  | n + 1, e, v1, v2, s =>
    let a := sh e v1
    let b := sh a.2 v2
    let r := runTrial F maxM a.1 b.1 s
    (r.1, r.2.1, F.asize r.2.2.1) :: trialStatsLoop F sh maxM n b.2 a.1 r.2.2.2 F.empty

/-- Embedding of estimate_final_series_size (series_multiplier.hpp, lines
743-836).  If an operand is empty, 0 is returned immediately.  Otherwise 10
trials are run with maxM = floor(sqrt(size1 * size2 / 4)) and the estimate
(mean * mean * multiplier * (total - filtered)) / total with
mean = total / 10 is returned together with the final accumulator state.
The division by total is performed by piranha::integer and throws a
zero-division error when total = 0, modelled as none.  The engine argument
e0 models the locally default-constructed std::mt19937: every invocation in
the source passes the same freshly default-constructed engine. -/
def estimate_final_series_size {σ Eng : Type} (F : FunctorModel σ)
    (sh : Eng → List Nat → List Nat × Eng) (e0 : Eng)
    (size1 size2 : Nat) (acc : σ) : Option (Nat × σ) :=
  if size1 = 0 ∨ size2 = 0 then some (0, acc)
  else
    let ntrials : Nat := 10
    let multiplier : Nat := 4
    let v1 := List.range size1
    let v2 := List.range size2
    let maxM := isqrt ((size1 * size2) / multiplier)
    let r := trialsLoop F sh maxM ntrials e0 v1 v2 acc 0 0
    if r.1 = 0 then none
    else
      let mean := r.1 / ntrials
      some ((mean * mean * multiplier * (r.1 - r.2.1)) / r.1, r.2.2)

/-! ## Rehasher of the single-threaded / per-thread path -/

/-- Embedding of the rehasher (series_multiplier.hpp, lines 724-742).  The
pre-sizing analysis is attempted exactly when s2 is non-zero and
s1 >= 100000 / s2 (integer division, as in the source guard
(s2 && s1 >= 100000u / s2)); on success the accumulator is rehashed to
ceil(estimate / max_load_factor) and (true, estimate) is returned; if the
estimator throws, the accumulator is cleared and (false, 0) is returned
with no rehash; if the guard fails nothing happens.  The result is
(attempted, (flag, estimate, rehash request, accumulator state)). -/
def rehasher {σ Eng : Type} (F : FunctorModel σ)
    (sh : Eng → List Nat → List Nat × Eng) (e0 : Eng)
    (s1 s2 : Nat) (acc : σ) (mlf : ℚ) :
    Bool × (Bool × Nat × Option Nat × σ) :=
  if s2 ≠ 0 ∧ 100000 / s2 ≤ s1 then
    (true,
      match estimate_final_series_size F sh e0 s1 s2 acc with
      | some (size, acc1) => (true, size, some ⌈(size : ℚ) / mlf⌉₊, acc1)
      | none => (false, 0, none, F.empty))
  else
    (false, (false, 0, none, acc))

/-! ## Concrete instances used to evaluate the theorems -/

/-- Per-trial statistics of the ten trials exactly as invoked by
estimate_final_series_size: trial-local maxM, index vectors built from the
operand sizes, initial accumulator state. -/
def estimator_stats {σ Eng : Type} (F : FunctorModel σ)
    (sh : Eng → List Nat → List Nat × Eng) (e0 : Eng)
    (size1 size2 : Nat) (acc : σ) : List (Nat × Nat × Nat) :=
  trialStatsLoop F sh (isqrt (size1 * size2 / 4)) 10 e0
    (List.range size1) (List.range size2) acc

/-- Concrete functor instance: arity-1 term multiplication in which every
product is a fresh term (the accumulator, modelled by its size, grows by 1
on every insertion) and nothing is filtered. -/
def growFunctor : FunctorModel Nat where
  mulInsert := fun s _ _ => s + 1
  asize := fun s => s
  resSize := 1
  nFiltered := fun _ _ => 0
  empty := 0
  hfilter := fun _ _ => Nat.zero_le _

/-- Concrete functor instance with arity-2 term multiplication (as for
Poisson-series terms, whose multiplication produces two terms): every
product is fresh and nothing is filtered. -/
def growFunctor2 : FunctorModel Nat where
  mulInsert := fun s _ _ => s + 2
  asize := fun s => s
  resSize := 2
  nFiltered := fun _ _ => 0
  empty := 0
  hfilter := fun _ _ => Nat.zero_le _

/-- Trivial shuffle model (identity permutation, stateless engine) used to
instantiate the estimator theorems on concrete inputs. -/
def idShuffle : Unit → List Nat → List Nat × Unit := fun _ l => (l, ())

/-! ## Theorems for the claims -/

/-- Helper: the downward scan returns the floor square root as soon as the
fuel bound is at least Nat.sqrt n. -/
theorem isqrtAux_eq_sqrt (n : Nat) :
    ∀ m, Nat.sqrt n ≤ m → isqrtAux n m = Nat.sqrt n := by
  intro m
  induction m with
  | zero => intro h; simpa [isqrtAux] using by omega
  | succ k ih =>
    intro h
    by_cases hk : (k + 1) * (k + 1) ≤ n
    · have : k + 1 ≤ Nat.sqrt n := Nat.le_sqrt.mpr hk
      simp only [isqrtAux, if_pos hk]
      omega
    · have : Nat.sqrt n ≤ k := by
        by_contra hc
        exact hk (Nat.le_sqrt.mp (by omega))
      simp only [isqrtAux, if_neg hk]
      exact ih this

/-- Helper: the executable integer square root agrees with Nat.sqrt. -/
theorem isqrt_eq_sqrt (n : Nat) : isqrt n = Nat.sqrt n :=
  isqrtAux_eq_sqrt n n (Nat.sqrt_le_self n)

/-- C2: for non-empty operands, the thread count computed by execute equals
the configured maximum when size1 * size2 divided by that maximum is at
least 100000, otherwise max 1 (size1 * size2 / 100000), the whole clamped
to at most size1; and execution is single-threaded exactly when this count
is 1 or the calling thread is not the recorded main thread. -/
theorem thread_count_spec (maxT size1 size2 : Nat) (isMainThread : Bool)
    (hT : 1 ≤ maxT) (h1 : 1 ≤ size1) :
    compute_n_threads maxT size1 size2 =
      min size1
        (if 100000 ≤ size1 * size2 / maxT then maxT else max 1 (size1 * size2 / 100000)) ∧
    (single_threaded maxT size1 size2 isMainThread = true ↔
      compute_n_threads maxT size1 size2 = 1 ∨ isMainThread = false) := by
  have key : ∀ X : Nat, (if size1 < X then size1 else X) = min size1 X := by
    intro X
    rcases Nat.lt_or_ge size1 X with h | h
    · rw [if_pos h, Nat.min_eq_left (Nat.le_of_lt h)]
    · rw [if_neg (Nat.not_lt.mpr h), Nat.min_eq_right h]
  constructor
  · by_cases hT1 : maxT = 1
    · subst hT1
      simp only [compute_n_threads, ne_eq, not_true_eq_false, if_false, Nat.div_one]
      rcases Nat.lt_or_ge (size1 * size2) 100000 with hc | hc
      · rw [Nat.div_eq_of_lt hc, key]
        split <;> omega
      · rw [if_pos hc, key]
    · simp only [compute_n_threads, ne_eq, hT1, not_false_eq_true, if_true]
      exact key _
  · cases isMainThread <;> simp [single_threaded]

/-- Witness for thread_count_spec at maxT = 4, sizes 3 and 5 on the main
thread. -/
theorem thread_count_spec_witness :
    (1 ≤ 4 ∧ 1 ≤ 3) ∧
    (compute_n_threads 4 3 5 =
      min 3 (if 100000 ≤ 3 * 5 / 4 then 4 else max 1 (3 * 5 / 100000)) ∧
    (single_threaded 4 3 5 true = true ↔
      compute_n_threads 4 3 5 = 1 ∨ true = false)) :=
  ⟨⟨by decide, by decide⟩, thread_count_spec 4 3 5 true (by decide) (by decide)⟩

/-- C6: if any worker of the final merge raises an exception, the merge
stage of execute clears the target accumulator and every per-thread source
accumulator before propagating, and the propagated exception is the first
one captured. -/
theorem merge_failure_cleanup {E : Type} (phase1 phase2 : List E)
    (merged : List Nat) (sources : List (List Nat))
    (h : phase1 ≠ [] ∨ phase2 ≠ []) :
    (execute_merge_stage phase1 phase2 merged sources).1 = (phase1 ++ phase2).head? ∧
    (execute_merge_stage phase1 phase2 merged sources).2.1 = [] ∧
    ∀ s ∈ (execute_merge_stage phase1 phase2 merged sources).2.2, s = [] := by
  rcases phase1 with _ | ⟨e, es⟩
  · rcases phase2 with _ | ⟨e, es⟩
    · simp at h
    · refine ⟨rfl, rfl, ?_⟩
      intro s hs
      simp only [execute_merge_stage, final_merge_model, List.mem_map] at hs
      obtain ⟨_, _, h2⟩ := hs
      exact h2.symm
  · refine ⟨rfl, rfl, ?_⟩
    intro s hs
    simp only [execute_merge_stage, final_merge_model, List.mem_map] at hs
    obtain ⟨_, _, h2⟩ := hs
    exact h2.symm

/-- Witness for merge_failure_cleanup with one captured exception in the
insertion phase. -/
theorem merge_failure_cleanup_witness :
    (([] : List String) ≠ [] ∨ (["boom"] : List String) ≠ []) ∧
    ((execute_merge_stage ([] : List String) ["boom"] [7] [[1], [2]]).1 =
        (([] : List String) ++ ["boom"]).head? ∧
      (execute_merge_stage ([] : List String) ["boom"] [7] [[1], [2]]).2.1 = [] ∧
      ∀ s ∈ (execute_merge_stage ([] : List String) ["boom"] [7] [[1], [2]]).2.2, s = []) :=
  ⟨Or.inr (by decide), merge_failure_cleanup [] ["boom"] [7] [[1], [2]] (Or.inr (by decide))⟩

/-- C7: when the operands have equal symbol sets and at least one of them
is empty, execute returns a default-constructed empty series, independently
of the rest of the multiplication pipeline (estimator, tiler, merge). -/
theorem execute_empty_operand {T : Type} (s1 s2 : SeriesModel T)
    (hsym : s1.symbol_set = s2.symbol_set) (h : s1.terms = [] ∨ s2.terms = [])
    (heavy heavy2 : SeriesModel T → SeriesModel T → SeriesModel T) :
    execute_entry s1 s2 heavy = { symbol_set := [], terms := [] } ∧
    execute_entry s1 s2 heavy = execute_entry s1 s2 heavy2 := by
  have hb : (s1.terms.isEmpty || s2.terms.isEmpty) = true := by
    rcases h with h | h <;> simp [h]
  constructor <;> simp [execute_entry, hb]

/-- Witness for execute_empty_operand: first operand empty, second not. -/
theorem execute_empty_operand_witness :
    ((⟨["x"], []⟩ : SeriesModel Nat).symbol_set = (⟨["x"], [5]⟩ : SeriesModel Nat).symbol_set ∧
      ((⟨["x"], []⟩ : SeriesModel Nat).terms = [] ∨ (⟨["x"], [5]⟩ : SeriesModel Nat).terms = [])) ∧
    (execute_entry (⟨["x"], []⟩ : SeriesModel Nat) ⟨["x"], [5]⟩ (fun a _ => a) =
        { symbol_set := [], terms := [] } ∧
      execute_entry (⟨["x"], []⟩ : SeriesModel Nat) ⟨["x"], [5]⟩ (fun a _ => a) =
        execute_entry (⟨["x"], []⟩ : SeriesModel Nat) ⟨["x"], [5]⟩ (fun _ b => b)) :=
  ⟨⟨rfl, Or.inl rfl⟩,
    execute_empty_operand ⟨["x"], []⟩ ⟨["x"], [5]⟩ rfl (Or.inl rfl) (fun a _ => a) (fun _ b => b)⟩

/-- C8: constructing the multiplication functor with an IsActive flag that
differs from the activity flag of the truncator always throws
std::invalid_argument, and no term multiplication or insertion happens on
that path (the continuation rest never runs, whatever it is). -/
theorem functor_flag_mismatch (isActive truncActive truncSkipping : Bool)
    (h : isActive ≠ truncActive) (cmp : Nat → Nat → Bool) (v1 v2 : List Nat)
    (rest : List Nat × List Nat → List Nat) :
    ctor_then isActive truncActive truncSkipping cmp v1 v2 rest =
      .error "inconsistent activity flags for truncator" := by
  simp [ctor_then, default_functor_ctor, h, Except.map]

/-- Witness for functor_flag_mismatch with IsActive true and an inactive
truncator. -/
theorem functor_flag_mismatch_witness :
    (true ≠ false) ∧
    ctor_then true false true (fun a b => a ≤ b) [2, 1] [3] (fun p => p.1 ++ p.2) =
      .error "inconsistent activity flags for truncator" :=
  ⟨by decide,
    functor_flag_mismatch true false true (by decide) (fun a b => a ≤ b) [2, 1] [3]
      (fun p => p.1 ++ p.2)⟩

/-- C9: the density estimator is deterministic.  Its random engine is a
locally default-constructed std::mt19937, modelled by the fixed engine
argument e0 shared by every invocation, so two invocations on equal
operand arrays, sizes and functor return equal results. -/
theorem estimator_deterministic {σ Eng : Type} (F F2 : FunctorModel σ)
    (sh : Eng → List Nat → List Nat × Eng) (e0 : Eng)
    (size1 size2 size1b size2b : Nat) (acc accb : σ)
    (hF : F = F2) (h1 : size1 = size1b) (h2 : size2 = size2b) (ha : acc = accb) :
    estimate_final_series_size F sh e0 size1 size2 acc =
      estimate_final_series_size F2 sh e0 size1b size2b accb := by
  subst hF h1 h2 ha
  rfl

/-- Witness for estimator_deterministic: two invocations on sizes 2 and 2
with the arity-1 functor. -/
theorem estimator_deterministic_witness :
    (growFunctor = growFunctor ∧ (2 : Nat) = 2 ∧ (0 : Nat) = 0) ∧
    estimate_final_series_size growFunctor idShuffle () 2 2 0 =
      estimate_final_series_size growFunctor idShuffle () 2 2 0 :=
  ⟨⟨rfl, rfl, rfl⟩,
    estimator_deterministic growFunctor growFunctor idShuffle () 2 2 2 2 0 0 rfl rfl rfl rfl⟩

/-- Helper: find_if_idx returns none exactly when no element satisfies the
predicate. -/
theorem find_if_idx_none_iff (p : Nat → Bool) :
    ∀ l : List Nat, find_if_idx p l = none ↔ ∀ b ∈ l, p b = false := by
  intro l
  induction l with
  | nil => simp [find_if_idx]
  | cons b bs ih =>
    by_cases hb : p b
    · simp [find_if_idx, hb]
    · simp [find_if_idx, hb, Option.map_eq_none', ih]

/-- Helper: a successful find_if_idx returns the first index satisfying the
predicate. -/
theorem find_if_idx_some (p : Nat → Bool) :
    ∀ l i, find_if_idx p l = some i →
      i < l.length ∧ p (l.getD i 0) = true ∧ ∀ k, k < i → p (l.getD k 0) = false := by
  intro l
  induction l with
  | nil => intro i h; simp [find_if_idx] at h
  | cons b bs ih =>
    intro i h
    by_cases hb : p b
    · rw [find_if_idx, if_pos hb] at h
      cases h
      exact ⟨by simp, by simpa using hb, fun k hk => by omega⟩
    · rw [find_if_idx, if_neg hb] at h
      obtain ⟨j, hj, hji⟩ := Option.map_eq_some'.mp h
      obtain ⟨h1, h2, h3⟩ := ih j hj
      subst hji
      refine ⟨by simpa using h1, by simpa using h2, ?_⟩
      intro k hk
      match k with
      | 0 => simpa using hb
      | k + 1 => simpa using h3 k (by omega)

/-- Helper: if some element satisfies the predicate, find_if_idx succeeds. -/
theorem find_if_idx_isSome (p : Nat → Bool) :
    ∀ l : List Nat, (∃ b ∈ l, p b = true) → ∃ i, find_if_idx p l = some i := by
  intro l
  induction l with
  | nil => simp
  | cons b bs ih =>
    rintro ⟨c, hc, hpc⟩
    by_cases hb : p b
    · exact ⟨0, by simp [find_if_idx, hb]⟩
    · rcases List.mem_cons.mp hc with hceq | hmem
      · subst hceq; exact absurd hpc (by simpa using hb)
      · obtain ⟨i, hi⟩ := ih ⟨c, hmem, hpc⟩
        exact ⟨i + 1, by simp [find_if_idx, hb, hi]⟩

/-- C5 (amended): after the final estimate N is adjusted to at least 1, if
some per-thread accumulator has bucket_count * max_load_factor >= N then
the first such accumulator is moved out as the merge target and removed
from the list; otherwise a fresh accumulator is rehashed to N itself (the
raw estimate, not ceil(N / max_load_factor)). -/
theorem merge_target_selection_spec (l : List Nat) (mlf : ℚ) (est0 : Nat)
    (h1 : 1 ≤ est0) :
    ((∃ b ∈ l, (est0 : ℚ) ≤ (b : ℚ) * mlf) →
      ∃ i, i < l.length ∧ (est0 : ℚ) ≤ ((l.getD i 0 : Nat) : ℚ) * mlf ∧
        (∀ k, k < i → ((l.getD k 0 : Nat) : ℚ) * mlf < (est0 : ℚ)) ∧
        select_merge_target l mlf est0 = (.moved (l.getD i 0) i, l.eraseIdx i)) ∧
    ((∀ b ∈ l, (b : ℚ) * mlf < (est0 : ℚ)) →
      select_merge_target l mlf est0 = (.fresh est0, l)) := by
  have hadj : (if est0 = 0 then 1 else est0) = est0 := if_neg (by omega)
  constructor
  · rintro ⟨b, hb, hble⟩
    obtain ⟨i, hi⟩ :=
      find_if_idx_isSome (fun c => decide ((est0 : ℚ) ≤ (c : ℚ) * mlf)) l
        ⟨b, hb, by simpa using hble⟩
    obtain ⟨hlen, hp, hprev⟩ :=
      find_if_idx_some (fun c => decide ((est0 : ℚ) ≤ (c : ℚ) * mlf)) l i hi
    refine ⟨i, hlen, by simpa using hp, ?_, ?_⟩
    · intro k hk
      have := hprev k hk
      simp only [decide_eq_false_iff_not, not_le] at this
      exact this
    · simp only [select_merge_target, hadj, hi]
  · intro hall
    have hnone : find_if_idx (fun c => decide ((est0 : ℚ) ≤ (c : ℚ) * mlf)) l = none :=
      (find_if_idx_none_iff _ l).mpr
        (fun b hb => by simpa using not_le.mpr (hall b hb))
    simp only [select_merge_target, hadj, hnone]

/-- Witness for merge_target_selection_spec: one per-thread accumulator with
8 buckets, load factor 1, estimate 4. -/
theorem merge_target_selection_witness :
    (1 ≤ 4) ∧
    (((∃ b ∈ ([8] : List Nat), ((4 : Nat) : ℚ) ≤ (b : ℚ) * 1) →
      ∃ i, i < ([8] : List Nat).length ∧
        ((4 : Nat) : ℚ) ≤ (([8].getD i 0 : Nat) : ℚ) * 1 ∧
        (∀ k, k < i → (([8].getD k 0 : Nat) : ℚ) * 1 < ((4 : Nat) : ℚ)) ∧
        select_merge_target [8] 1 4 = (.moved ([8].getD i 0) i, [8].eraseIdx i)) ∧
    ((∀ b ∈ ([8] : List Nat), (b : ℚ) * 1 < ((4 : Nat) : ℚ)) →
      select_merge_target [8] 1 4 = (.fresh 4, [8]))) :=
  ⟨by decide, merge_target_selection_spec [8] 1 4 (by decide)⟩

/-- Counterexample for C5 as stated: with estimate 3, max load factor 1/2
and a single per-thread accumulator of 4 buckets (no candidate, since
4 * 1/2 < 3), the code rehashes the fresh target to 3 buckets, not to
ceil(3 / (1/2)) = 6 as the claim states. -/
theorem merge_target_fresh_counterexample :
    select_merge_target [4] (1/2 : ℚ) 3 = (.fresh 3, [4]) ∧
    ⌈((3 : Nat) : ℚ) / ((1 : ℚ) / 2)⌉₊ = 6 ∧ (3 : Nat) ≠ 6 := by
  refine ⟨?_, ?_, by decide⟩
  · simp only [select_merge_target, find_if_idx]
    norm_num
  · rw [show ((3 : Nat) : ℚ) / ((1 : ℚ) / 2) = 6 by norm_num]
    simp

/-- Helper: the product count returned by a sweep stays below
maxM + resSize whenever it starts below that bound (the loop guard is
checked before each multiplication, so the final count can overshoot maxM
by at most resSize - 1). -/
theorem sweepLoop_count_lt {σ : Type} (F : FunctorModel σ) (maxM : Nat) (v1 : List Nat) :
    ∀ fuel count countF s v2 p1 p2, count < maxM + F.resSize →
      (sweepLoop F maxM v1 fuel count countF s v2 p1 p2).1 < maxM + F.resSize := by
  intro fuel
  induction fuel with
  | zero => intro count countF s v2 p1 p2 h; simpa [sweepLoop] using h
  | succ n ih =>
    intro count countF s v2 p1 p2 h
    simp only [sweepLoop]
    split
    next hlt =>
      split
      next => simpa using h
      next => exact ih _ _ _ _ _ _ (by omega)
    next => simpa using h

/-- Helper: if a sweep with enough fuel stops with a product count below
maxM, then the loop broke on the last multiplication: the accumulator size
differs from count + resSize, i.e. the last product failed to grow the
accumulator by the full arity. -/
theorem sweepLoop_stop_spec {σ : Type} (F : FunctorModel σ) (maxM : Nat) (v1 : List Nat)
    (hr : 1 ≤ F.resSize) :
    ∀ fuel count countF s v2 p1 p2, maxM ≤ count + fuel →
      (sweepLoop F maxM v1 fuel count countF s v2 p1 p2).1 < maxM →
      F.asize (sweepLoop F maxM v1 fuel count countF s v2 p1 p2).2.2.1 ≠
        (sweepLoop F maxM v1 fuel count countF s v2 p1 p2).1 + F.resSize := by
  intro fuel
  induction fuel with
  | zero =>
    intro count countF s v2 p1 p2 hfuel hlt
    simp only [sweepLoop] at hlt
    omega
  | succ n ih =>
    intro count countF s v2 p1 p2 hfuel
    simp only [sweepLoop]
    split
    next hc =>
      split
      next hbrk => intro _; simpa using hbrk
      next => exact ih _ _ _ _ _ _ (by omega)
    next hc =>
      intro hlt
      simp only at hlt
      omega

/-- Helper: the per-sweep filtered count never exceeds the product count,
because each iteration adds at most resSize to the filtered count and
exactly resSize to the product count. -/
theorem sweepLoop_filtered_le {σ : Type} (F : FunctorModel σ) (maxM : Nat) (v1 : List Nat) :
    ∀ fuel count countF s v2 p1 p2, countF ≤ count →
      (sweepLoop F maxM v1 fuel count countF s v2 p1 p2).2.1 ≤
        (sweepLoop F maxM v1 fuel count countF s v2 p1 p2).1 := by
  intro fuel
  induction fuel with
  | zero => intro count countF s v2 p1 p2 h; simpa [sweepLoop] using h
  | succ n ih =>
    intro count countF s v2 p1 p2 h
    simp only [sweepLoop]
    split
    next =>
      split
      next => simpa using h
      next => exact ih _ _ _ _ _ _ (Nat.add_le_add h (F.hfilter _ _))
    next => simpa using h

/-- Helper: the trial-statistics list has one entry per trial. -/
theorem trialStatsLoop_length {σ Eng : Type} (F : FunctorModel σ)
    (sh : Eng → List Nat → List Nat × Eng) (maxM : Nat) :
    ∀ n e v1 v2 s, (trialStatsLoop F sh maxM n e v1 v2 s).length = n := by
  intro n
  induction n with
  | zero => intro e v1 v2 s; simp [trialStatsLoop]
  | succ k ih =>
    intro e v1 v2 s
    simp only [trialStatsLoop, List.length_cons]
    rw [ih]

/-- Helper: the running totals of trialsLoop are the sums of the per-trial
counts recorded by trialStatsLoop. -/
theorem trialsLoop_totals {σ Eng : Type} (F : FunctorModel σ)
    (sh : Eng → List Nat → List Nat × Eng) (maxM : Nat) :
    ∀ n e v1 v2 s total filtered,
      (trialsLoop F sh maxM n e v1 v2 s total filtered).1 =
        total + ((trialStatsLoop F sh maxM n e v1 v2 s).map (fun t => t.1)).sum ∧
      (trialsLoop F sh maxM n e v1 v2 s total filtered).2.1 =
        filtered + ((trialStatsLoop F sh maxM n e v1 v2 s).map (fun t => t.2.1)).sum := by
  intro n
  induction n with
  | zero => intro e v1 v2 s total filtered; simp [trialsLoop, trialStatsLoop]
  | succ k ih =>
    intro e v1 v2 s total filtered
    simp only [trialsLoop, trialStatsLoop, List.map_cons, List.sum_cons]
    constructor
    · rw [(ih _ _ _ _ _ _).1]; omega
    · rw [(ih _ _ _ _ _ _).2]; omega

/-- Helper: every trial recorded by trialStatsLoop respects the sweep
bounds: the product count overshoots maxM by less than resSize, an early
stop happens only on a non-growing product, and the filtered count is at
most the product count. -/
theorem trialStats_mem_spec {σ Eng : Type} (F : FunctorModel σ)
    (sh : Eng → List Nat → List Nat × Eng) (maxM : Nat) (hr : 1 ≤ F.resSize) :
    ∀ n e v1 v2 s t, t ∈ trialStatsLoop F sh maxM n e v1 v2 s →
      t.1 < maxM + F.resSize ∧ (t.1 < maxM → t.2.2 ≠ t.1 + F.resSize) ∧ t.2.1 ≤ t.1 := by
  intro n
  induction n with
  | zero => intro e v1 v2 s t ht; simp [trialStatsLoop] at ht
  | succ k ih =>
    intro e v1 v2 s t ht
    simp only [trialStatsLoop] at ht
    rcases List.mem_cons.mp ht with heq | hmem
    · subst heq
      refine ⟨?_, ?_, ?_⟩
      · exact sweepLoop_count_lt F maxM _ maxM 0 0 s _ 0 0 (by omega)
      · intro hlt
        exact sweepLoop_stop_spec F maxM _ hr maxM 0 0 s _ 0 0 (by omega) hlt
      · exact sweepLoop_filtered_le F maxM _ maxM 0 0 s _ 0 0 (Nat.le_refl 0)
    · exact ih _ _ _ _ _ hmem

/-- Helper: after at least one trial the accumulator state carried by
trialsLoop is the cleared (empty) one, since every trial ends by clearing
the container. -/
theorem trialsLoop_final_state {σ Eng : Type} (F : FunctorModel σ)
    (sh : Eng → List Nat → List Nat × Eng) (maxM : Nat) :
    ∀ n e v1 v2 s total filtered,
      (trialsLoop F sh maxM (n + 1) e v1 v2 s total filtered).2.2 = F.empty := by
  intro n
  induction n with
  | zero => intro e v1 v2 s total filtered; simp [trialsLoop]
  | succ m ih =>
    intro e v1 v2 s total filtered
    rw [trialsLoop]
    exact ih _ _ _ _ _ _

/-- C10: on every normal (non-throwing) return of
estimate_final_series_size with non-empty operands, the scratch accumulator
handed back with the estimate is the cleared empty container: the clear at
the end of every trial, including the last, leaves no terms behind. -/
theorem estimator_leaves_scratch_empty {σ Eng : Type} (F : FunctorModel σ)
    (sh : Eng → List Nat → List Nat × Eng) (e0 : Eng) (size1 size2 : Nat) (acc : σ)
    (h1 : 1 ≤ size1) (h2 : 1 ≤ size2) :
    ∀ p, estimate_final_series_size F sh e0 size1 size2 acc = some p → p.2 = F.empty := by
  intro p hp
  simp only [estimate_final_series_size] at hp
  rw [if_neg (by omega)] at hp
  split at hp
  · exact absurd hp (by simp)
  · rw [Option.some.injEq] at hp
    rw [← hp]
    have h9 : (10 : Nat) = 9 + 1 := rfl
    rw [show ((trialsLoop F sh (isqrt (size1 * size2 / 4)) 10 e0 (List.range size1)
        (List.range size2) acc 0 0).1 / 10 *
        ((trialsLoop F sh (isqrt (size1 * size2 / 4)) 10 e0 (List.range size1)
        (List.range size2) acc 0 0).1 / 10) * 4 *
        ((trialsLoop F sh (isqrt (size1 * size2 / 4)) 10 e0 (List.range size1)
        (List.range size2) acc 0 0).1 -
        (trialsLoop F sh (isqrt (size1 * size2 / 4)) 10 e0 (List.range size1)
        (List.range size2) acc 0 0).2.1) /
        (trialsLoop F sh (isqrt (size1 * size2 / 4)) 10 e0 (List.range size1)
        (List.range size2) acc 0 0).1,
        (trialsLoop F sh (isqrt (size1 * size2 / 4)) 10 e0 (List.range size1)
        (List.range size2) acc 0 0).2.2).2 =
        (trialsLoop F sh (isqrt (size1 * size2 / 4)) 10 e0 (List.range size1)
        (List.range size2) acc 0 0).2.2 from rfl, h9]
    exact trialsLoop_final_state F sh _ 9 e0 _ _ acc 0 0

/-- Witness for estimator_leaves_scratch_empty: sizes 2 and 2, arity-1
functor, scratch accumulator initially holding 5 terms; the estimator
returns with the accumulator empty. -/
theorem estimator_leaves_scratch_empty_witness :
    (1 ≤ 2) ∧ ((0, 0) : Nat × Nat).2 = growFunctor.empty :=
  ⟨by decide,
    estimator_leaves_scratch_empty growFunctor idShuffle () 2 2 5 (by decide) (by decide)
      (0, 0) (by decide)⟩

/-- C3 (amended): with non-empty operands the estimator runs exactly 10
trials; in each trial the sweep stops once the product count reaches
M = floor(sqrt(size1 * size2 / 4)) (so the count may overshoot M by at most
arity - 1) and stops early exactly at a product that fails to grow the
accumulator; the filtered total never exceeds the product total; and on a
normal return the estimate is
(total / 10) * (total / 10) * 4 * (total - filtered) / total in exact
integer arithmetic, total being non-zero on any normal return. -/
theorem estimator_trials_spec {σ Eng : Type} (F : FunctorModel σ)
    (sh : Eng → List Nat → List Nat × Eng) (e0 : Eng) (size1 size2 : Nat) (acc : σ)
    (h1 : 1 ≤ size1) (h2 : 1 ≤ size2) (hr : 1 ≤ F.resSize) :
    (estimator_stats F sh e0 size1 size2 acc).length = 10 ∧
    (∀ t ∈ estimator_stats F sh e0 size1 size2 acc,
      t.1 < Nat.sqrt (size1 * size2 / 4) + F.resSize ∧
      (t.1 < Nat.sqrt (size1 * size2 / 4) → t.2.2 ≠ t.1 + F.resSize) ∧
      t.2.1 ≤ t.1) ∧
    (∀ p, estimate_final_series_size F sh e0 size1 size2 acc = some p →
      ((estimator_stats F sh e0 size1 size2 acc).map (fun t => t.1)).sum ≠ 0 ∧
      p.1 = (((estimator_stats F sh e0 size1 size2 acc).map (fun t => t.1)).sum / 10) *
          (((estimator_stats F sh e0 size1 size2 acc).map (fun t => t.1)).sum / 10) * 4 *
          (((estimator_stats F sh e0 size1 size2 acc).map (fun t => t.1)).sum -
            ((estimator_stats F sh e0 size1 size2 acc).map (fun t => t.2.1)).sum) /
          ((estimator_stats F sh e0 size1 size2 acc).map (fun t => t.1)).sum) := by
  refine ⟨trialStatsLoop_length F sh _ 10 e0 _ _ acc, ?_, ?_⟩
  · intro t ht
    rw [← isqrt_eq_sqrt]
    exact trialStats_mem_spec F sh _ hr 10 e0 _ _ acc t ht
  · intro p hp
    simp only [estimate_final_series_size] at hp
    rw [if_neg (by omega)] at hp
    obtain ⟨ht1, ht2⟩ :=
      trialsLoop_totals F sh (isqrt (size1 * size2 / 4)) 10 e0
        (List.range size1) (List.range size2) acc 0 0
    rw [Nat.zero_add] at ht1 ht2
    split at hp
    · exact absurd hp (by simp)
    · next hz =>
      rw [Option.some.injEq] at hp
      rw [ht1] at hz
      refine ⟨hz, ?_⟩
      rw [← hp]
      simp only [estimator_stats]
      rw [ht1, ht2]

/-- Counterexample for C3 as stated: with arity-2 term multiplication
(resSize = 2) on operands of sizes 6 and 6, M = floor(sqrt(36 / 4)) = 3,
yet the very first trial multiplies products past M: the loop guard
count < M is checked before each pair, so the trial records 4 products,
more than the M products the claim allows per trial. -/
theorem estimator_overshoot_counterexample :
    Nat.sqrt (6 * 6 / 4) = 3 ∧
    (estimator_stats growFunctor2 idShuffle () 6 6 0).head?.map (fun t => t.1) = some 4 ∧
    3 < 4 := by
  refine ⟨by rw [← isqrt_eq_sqrt]; decide, ?_, by decide⟩
  decide

/-- Witness for estimator_trials_spec: arity-1 functor on operands of sizes
6 and 6. -/
theorem estimator_trials_spec_witness :
    (1 ≤ 6 ∧ 1 ≤ growFunctor.resSize) ∧
    ((estimator_stats growFunctor idShuffle () 6 6 0).length = 10 ∧
    (∀ t ∈ estimator_stats growFunctor idShuffle () 6 6 0,
      t.1 < Nat.sqrt (6 * 6 / 4) + growFunctor.resSize ∧
      (t.1 < Nat.sqrt (6 * 6 / 4) → t.2.2 ≠ t.1 + growFunctor.resSize) ∧
      t.2.1 ≤ t.1) ∧
    (∀ p, estimate_final_series_size growFunctor idShuffle () 6 6 0 = some p →
      ((estimator_stats growFunctor idShuffle () 6 6 0).map (fun t => t.1)).sum ≠ 0 ∧
      p.1 = (((estimator_stats growFunctor idShuffle () 6 6 0).map (fun t => t.1)).sum / 10) *
          (((estimator_stats growFunctor idShuffle () 6 6 0).map (fun t => t.1)).sum / 10) * 4 *
          (((estimator_stats growFunctor idShuffle () 6 6 0).map (fun t => t.1)).sum -
            ((estimator_stats growFunctor idShuffle () 6 6 0).map (fun t => t.2.1)).sum) /
          ((estimator_stats growFunctor idShuffle () 6 6 0).map (fun t => t.1)).sum)) :=
  ⟨⟨by decide, by decide⟩,
    estimator_trials_spec growFunctor idShuffle () 6 6 0 (by decide) (by decide) (by decide)⟩

/-- Counterexample for C4 as stated: on operand sizes 3 and 30000 the
product 90000 is below 100000, yet the rehasher guard
(s2 && s1 >= 100000u / s2) holds (100000 / 30000 = 3 <= 3), so the
pre-sizing estimation is attempted. -/
theorem rehasher_gate_counterexample :
    (rehasher growFunctor idShuffle () 3 30000 0 1).1 = true ∧ 3 * 30000 < 100000 :=
  ⟨rfl, by decide⟩

/-- C4 (amended): for non-empty operands, the rehasher attempts the
pre-sizing estimation exactly when s1 >= floor(100000 / s2); in particular
it always attempts it when s1 * s2 >= 100000 (but the converse fails, as
floor division lets some products slightly below 100000 through); and when
the estimator returns normally the accumulator is rehashed to
ceil(estimate / max_load_factor). -/
theorem rehasher_gate_spec {σ Eng : Type} (F : FunctorModel σ)
    (sh : Eng → List Nat → List Nat × Eng) (e0 : Eng)
    (s1 s2 : Nat) (acc : σ) (mlf : ℚ) (h1 : 1 ≤ s1) (h2 : 1 ≤ s2) :
    ((rehasher F sh e0 s1 s2 acc mlf).1 = true ↔ 100000 / s2 ≤ s1) ∧
    (100000 ≤ s1 * s2 → (rehasher F sh e0 s1 s2 acc mlf).1 = true) ∧
    (∀ sz acc1, estimate_final_series_size F sh e0 s1 s2 acc = some (sz, acc1) →
      100000 / s2 ≤ s1 →
      (rehasher F sh e0 s1 s2 acc mlf).2 = (true, sz, some ⌈(sz : ℚ) / mlf⌉₊, acc1)) := by
  have hs2 : s2 ≠ 0 := by omega
  have hgate : ∀ hg : 100000 / s2 ≤ s1,
      rehasher F sh e0 s1 s2 acc mlf =
        (true,
          match estimate_final_series_size F sh e0 s1 s2 acc with
          | some (size, acc1) => (true, size, some ⌈(size : ℚ) / mlf⌉₊, acc1)
          | none => (false, 0, none, F.empty)) := by
    intro hg
    simp only [rehasher, if_pos (And.intro hs2 hg)]
  refine ⟨?_, ?_, ?_⟩
  · constructor
    · intro hb
      by_contra hg
      have : rehasher F sh e0 s1 s2 acc mlf = (false, (false, 0, none, acc)) := by
        simp only [rehasher]
        rw [if_neg]
        rintro ⟨-, hc⟩
        exact hg hc
      rw [this] at hb
      exact Bool.false_ne_true hb
    · intro hg
      rw [hgate hg]
  · intro hw
    have hg : 100000 / s2 ≤ s1 := by
      calc 100000 / s2 ≤ s1 * s2 / s2 := Nat.div_le_div_right hw
        _ = s1 := Nat.mul_div_cancel s1 (by omega)
    rw [hgate hg]
  · intro sz acc1 hest hg
    rw [hgate hg, hest]

/-- Witness for rehasher_gate_spec at sizes 2 and 2 with load factor 1. -/
theorem rehasher_gate_spec_witness :
    (1 ≤ 2) ∧
    (((rehasher growFunctor idShuffle () 2 2 0 1).1 = true ↔ 100000 / 2 ≤ 2) ∧
    (100000 ≤ 2 * 2 → (rehasher growFunctor idShuffle () 2 2 0 1).1 = true) ∧
    (∀ sz acc1, estimate_final_series_size growFunctor idShuffle () 2 2 0 = some (sz, acc1) →
      100000 / 2 ≤ 2 →
      (rehasher growFunctor idShuffle () 2 2 0 1).2 =
        (true, sz, some ⌈(sz : ℚ) / 1⌉₊, acc1))) :=
  ⟨by decide, rehasher_gate_spec growFunctor idShuffle () 2 2 0 1 (by decide) (by decide)⟩

/-- Helper: under a skip predicate monotone in j, the inner row loop (which
breaks at the first skipped j) visits, as a multiset, exactly the
non-skipped pairs of its range. -/
theorem coe_rowLoop_eq_sum (skip : Nat → Nat → Bool)
    (hmono : ∀ i j j2, j ≤ j2 → skip i j = true → skip i j2 = true) :
    ∀ i len a, ((rowLoop skip i a len : List (Nat × Nat)) : Multiset (Nat × Nat)) =
      ∑ k ∈ Finset.range len, rowAt skip i (a + k) := by
  intro i len
  induction len with
  | zero => intro a; simp [rowLoop]
  | succ n ih =>
    intro a
    rw [Finset.sum_range_succ']
    by_cases h : skip i a = true
    · have hz : ∀ k ∈ Finset.range n, rowAt skip i (a + (k + 1)) = 0 := by
        intro k _
        simp [rowAt, hmono i a (a + (k + 1)) (by omega) h]
      rw [Finset.sum_eq_zero hz]
      simp [rowLoop, List.range'_succ, rowAt, h]
    · have hfalse : skip i a = false := by simpa using h
      have hshift : ∑ k ∈ Finset.range n, rowAt skip i (a + (k + 1)) =
          ∑ k ∈ Finset.range n, rowAt skip i ((a + 1) + k) :=
        Finset.sum_congr rfl (fun k _ => by rw [show a + (k + 1) = (a + 1) + k by omega])
      have hL : (rowLoop skip i a (n + 1) : Multiset (Nat × Nat)) =
          (i, a) ::ₘ ((rowLoop skip i (a + 1) n : List (Nat × Nat)) : Multiset (Nat × Nat)) := by
        simp [rowLoop, List.range'_succ, List.takeWhile_cons, hfalse]
      rw [hL, ih, hshift, show rowAt skip i (a + 0) = {(i, a)} by simp [rowAt, hfalse],
        ← Multiset.singleton_add]
      exact add_comm _ _

/-- Helper: the filtered row of the naive loop as an indexed sum of
per-pair contributions. -/
theorem coe_filter_row (skip : Nat → Nat → Bool) (i : Nat) :
    ∀ n, ((((List.range n).filter (fun j => !skip i j)).map
        (fun j => (i, j)) : List (Nat × Nat)) : Multiset (Nat × Nat)) =
      ∑ j ∈ Finset.range n, rowAt skip i j := by
  intro n
  induction n with
  | zero => simp
  | succ m ih =>
    rw [List.range_succ, List.filter_append, List.map_append, ← Multiset.coe_add, ih,
      Finset.sum_range_succ]
    congr 1
    by_cases h : skip i m = true
    · simp [rowAt, h]
    · have hfalse : skip i m = false := by simpa using h
      simp [rowAt, hfalse]

/-- Helper: the multiset of a flatMap over List.range' is the indexed sum
of the multisets of the pieces. -/
theorem coe_range'_flatMap {β : Type} :
    ∀ (len a : Nat) (f : Nat → List β),
      (((List.range' a len).flatMap f : List β) : Multiset β) =
        ∑ k ∈ Finset.range len, ((f (a + k) : List β) : Multiset β) := by
  intro len
  induction len with
  | zero => intro a f; simp
  | succ n ih =>
    intro a f
    rw [List.range'_succ, List.flatMap_cons, ← Multiset.coe_add, ih (a + 1) f,
      Finset.sum_range_succ']
    have hB : ((f (a + 0) : List β) : Multiset β) = ↑(f a) := by rw [Nat.add_zero]
    have hS : ∑ k ∈ Finset.range n, ((f (a + (k + 1)) : List β) : Multiset β) =
        ∑ k ∈ Finset.range n, ((f ((a + 1) + k) : List β) : Multiset β) :=
      Finset.sum_congr rfl (fun k _ => by rw [show a + (k + 1) = (a + 1) + k by omega])
    rw [hB, hS]
    exact add_comm _ _

/-- Helper: the multiset of a flatMap over List.range is the indexed sum of
the multisets of the pieces. -/
theorem coe_range_flatMap {β : Type} :
    ∀ (n : Nat) (f : Nat → List β),
      (((List.range n).flatMap f : List β) : Multiset β) =
        ∑ k ∈ Finset.range n, ((f k : List β) : Multiset β) := by
  intro n
  induction n with
  | zero => intro f; simp
  | succ m ih =>
    intro f
    rw [List.range_succ, List.flatMap_append, ← Multiset.coe_add, ih, Finset.sum_range_succ]
    congr 1
    simp

/-- Helper: splitting a sum over an initial segment into two consecutive
pieces. -/
theorem sum_range_add_decomp {M : Type} [AddCommMonoid M] (g : Nat → M) (m : Nat) :
    ∀ n, ∑ i ∈ Finset.range (m + n), g i =
      ∑ i ∈ Finset.range m, g i + ∑ k ∈ Finset.range n, g (m + k) := by
  intro n
  induction n with
  | zero => simp
  | succ p ih =>
    rw [Nat.add_succ, Finset.sum_range_succ, ih, Finset.sum_range_succ, add_assoc]

/-- Helper: a sum over whole blocks of width B collapses to a sum over the
covered initial segment. -/
theorem sum_blocks {M : Type} [AddCommMonoid M] (g : Nat → M) (B : Nat) :
    ∀ m, ∑ b ∈ Finset.range m, ∑ k ∈ Finset.range B, g (b * B + k) =
      ∑ i ∈ Finset.range (m * B), g i := by
  intro m
  induction m with
  | zero => simp
  | succ p ih =>
    rw [Finset.sum_range_succ, ih, Nat.succ_mul, sum_range_add_decomp g (p * B) B]

/-- Helper: within one band of rows, summing the per-tile contributions
(tiles of width B followed by the right remainder) row by row gives the
per-row totals, provided each row satisfies the block decomposition. -/
theorem block_row_collapse {M : Type} [AddCommMonoid M] (f : Nat → Nat → M) (g : Nat → M)
    (nb ilen B rem j0 : Nat)
    (hrow : ∀ k, (∑ n2 ∈ Finset.range nb, ∑ m ∈ Finset.range B, f k (n2 * B + m)) +
        ∑ m ∈ Finset.range rem, f k (j0 + m) = g k) :
    (∑ n2 ∈ Finset.range nb, ∑ k ∈ Finset.range ilen, ∑ m ∈ Finset.range B, f k (n2 * B + m)) +
      ∑ k ∈ Finset.range ilen, ∑ m ∈ Finset.range rem, f k (j0 + m) =
    ∑ k ∈ Finset.range ilen, g k := by
  rw [Finset.sum_comm, ← Finset.sum_add_distrib]
  exact Finset.sum_congr rfl (fun k _ => hrow k)

/-- C1: for any skip predicate monotone in j at every fixed i (as
guaranteed by the truncator sort of the operands), the multiset of terms
produced by the 256-tiled blocked_multiplication with the per-row break
equals the multiset produced by the naive double loop that tests skip on
every pair and omits exactly the skipped pairs. -/
theorem blocked_multiplication_eq_naive {α : Type} (term : Nat → Nat → α)
    (skip : Nat → Nat → Bool) (size1 size2 : Nat)
    (hmono : ∀ i j j2, j ≤ j2 → skip i j = true → skip i j2 = true) :
    Multiset.map (fun p => term p.1 p.2)
      ((blocked_multiplication skip size1 size2 : List (Nat × Nat)) : Multiset (Nat × Nat)) =
    Multiset.map (fun p => term p.1 p.2)
      ((naive_multiplication skip size1 size2 : List (Nat × Nat)) : Multiset (Nat × Nat)) := by
  suffices h : ((blocked_multiplication skip size1 size2 : List (Nat × Nat)) :
      Multiset (Nat × Nat)) = ↑(naive_multiplication skip size1 size2) by rw [h]
  have hblockRows : ∀ istart ilen a len,
      ((blockRows skip istart ilen a len : List (Nat × Nat)) : Multiset (Nat × Nat)) =
        ∑ k ∈ Finset.range ilen, ∑ m ∈ Finset.range len, rowAt skip (istart + k) (a + m) := by
    intro istart ilen a len
    unfold blockRows
    rw [coe_range'_flatMap]
    exact Finset.sum_congr rfl (fun k _ => coe_rowLoop_eq_sum skip hmono (istart + k) len a)
  have hb1 : size1 / 256 * 256 ≤ size1 := Nat.div_mul_le_self size1 256
  have hb2 : size2 / 256 * 256 ≤ size2 := Nat.div_mul_le_self size2 256
  have hrowfull : ∀ i,
      (∑ n2 ∈ Finset.range (size2 / 256), ∑ m ∈ Finset.range 256, rowAt skip i (n2 * 256 + m)) +
        ∑ m ∈ Finset.range (size2 - size2 / 256 * 256), rowAt skip i (size2 / 256 * 256 + m) =
      ∑ j ∈ Finset.range size2, rowAt skip i j := by
    intro i
    rw [sum_blocks (fun j => rowAt skip i j) 256 (size2 / 256),
      ← sum_range_add_decomp (fun j => rowAt skip i j) (size2 / 256 * 256)
        (size2 - size2 / 256 * 256),
      show size2 / 256 * 256 + (size2 - size2 / 256 * 256) = size2 by omega]
  simp only [blocked_multiplication, naive_multiplication, ← Multiset.coe_add,
    coe_range_flatMap, hblockRows, coe_filter_row]
  have hA : ∀ n1 : Nat,
      (∑ n2 ∈ Finset.range (size2 / 256), ∑ k ∈ Finset.range 256, ∑ m ∈ Finset.range 256,
          rowAt skip (n1 * 256 + k) (n2 * 256 + m)) +
        ∑ k ∈ Finset.range 256, ∑ m ∈ Finset.range (size2 - size2 / 256 * 256),
          rowAt skip (n1 * 256 + k) (size2 / 256 * 256 + m) =
      ∑ k ∈ Finset.range 256, ∑ j ∈ Finset.range size2, rowAt skip (n1 * 256 + k) j :=
    fun n1 =>
      block_row_collapse (fun k j => rowAt skip (n1 * 256 + k) j)
        (fun k => ∑ j ∈ Finset.range size2, rowAt skip (n1 * 256 + k) j)
        (size2 / 256) 256 256 (size2 - size2 / 256 * 256) (size2 / 256 * 256)
        (fun k => hrowfull (n1 * 256 + k))
  have hYZ :
      (∑ n2 ∈ Finset.range (size2 / 256), ∑ k ∈ Finset.range (size1 - size1 / 256 * 256),
          ∑ m ∈ Finset.range 256, rowAt skip (size1 / 256 * 256 + k) (n2 * 256 + m)) +
        ∑ k ∈ Finset.range (size1 - size1 / 256 * 256),
          ∑ m ∈ Finset.range (size2 - size2 / 256 * 256),
            rowAt skip (size1 / 256 * 256 + k) (size2 / 256 * 256 + m) =
      ∑ k ∈ Finset.range (size1 - size1 / 256 * 256),
        ∑ j ∈ Finset.range size2, rowAt skip (size1 / 256 * 256 + k) j :=
    block_row_collapse (fun k j => rowAt skip (size1 / 256 * 256 + k) j)
      (fun k => ∑ j ∈ Finset.range size2, rowAt skip (size1 / 256 * 256 + k) j)
      (size2 / 256) (size1 - size1 / 256 * 256) 256 (size2 - size2 / 256 * 256)
      (size2 / 256 * 256) (fun k => hrowfull (size1 / 256 * 256 + k))
  rw [add_assoc]
  rw [Finset.sum_congr rfl (fun n1 _ => hA n1), hYZ]
  rw [sum_blocks (fun i => ∑ j ∈ Finset.range size2, rowAt skip i j) 256 (size1 / 256),
    ← sum_range_add_decomp (fun i => ∑ j ∈ Finset.range size2, rowAt skip i j)
      (size1 / 256 * 256) (size1 - size1 / 256 * 256),
    show size1 / 256 * 256 + (size1 - size1 / 256 * 256) = size1 by omega]

/-- Witness for blocked_multiplication_eq_naive: total-degree cutoff skip
predicate (skip when i + j >= 4, monotone in j) on operands of sizes 5
and 5. -/
theorem blocked_multiplication_eq_naive_witness :
    (∀ i j j2 : Nat, j ≤ j2 →
      (fun i j => decide (4 ≤ i + j)) i j = true →
      (fun i j => decide (4 ≤ i + j)) i j2 = true) ∧
    Multiset.map (fun p => 10 * p.1 + p.2)
      ((blocked_multiplication (fun i j => decide (4 ≤ i + j)) 5 5 :
        List (Nat × Nat)) : Multiset (Nat × Nat)) =
    Multiset.map (fun p => 10 * p.1 + p.2)
      ((naive_multiplication (fun i j => decide (4 ≤ i + j)) 5 5 :
        List (Nat × Nat)) : Multiset (Nat × Nat)) :=
  ⟨fun i j j2 h hj => by
      simp only [decide_eq_true_eq] at hj ⊢
      omega,
    blocked_multiplication_eq_naive (fun i j => 10 * i + j)
      (fun i j => decide (4 ≤ i + j)) 5 5
      (fun i j j2 h hj => by
        simp only [decide_eq_true_eq] at hj ⊢
        omega)⟩

end PiranhaMul
